import Mathlib

/-!
Verification development for the `repo_manager` cross-process repository
cache (`src/repo_manager/__init__.py`).

The embedding is shallow and sequential: the persistent index (the
`lrucache` usage map and `badcache` bad set), the set of on-disk resource
entry directories and the set of per-key lock files are carried as an
explicit `PoolState`.  Python dicts are modelled as insertion-ordered
association lists, sets as duplicate-free lists.  Fallible Python code
returns `Except PyExn` or `Option` (a `none` models an uncaught exception
aborting the operation).  Lock acquisition and file-system effects that
the claims observe are recorded explicitly (transaction-mode traces,
lock-acquisition traces, file-system operation traces).
-/

namespace RepoManager

/-- Kinds of Python exceptions this module can raise. -/
inductive PyExn
  | attributeError (attr : String)
  | valueError
deriving DecidableEq, Repr

/-- The instance-attribute dictionary of a `FileLock` object.  A field is
`none` while the corresponding attribute has not been assigned yet;
reading a `none` field models an `AttributeError`. -/
structure FileLockSelf where
  file : Option (String × String) := none
  mode : Option String := none
deriving DecidableEq, Repr

/-- Embeds `FileLock.__init__(self, file, mode="w")` (lines 23-25 of the
source).  Line 24 evaluates the argument of `open`, namely
`"rb" if self.mode == "r" else "wb"`, reading the attribute `self.mode`
before line 25 assigns it; the fresh instance's attribute dictionary is
empty at that point. -/
def FileLock.init (file : String) (mode : String) : Except PyExn FileLockSelf :=
  let self : FileLockSelf := {}
  match self.mode with
  | none => .error (.attributeError "mode")
  | some m =>
    let openMode := if m = "r" then "rb" else "wb"
    let self1 : FileLockSelf := { self with file := some (file, openMode) }
    .ok { self1 with mode := some mode }

/-- The instance attributes of a `FileDB.Transaction` object after
construction. -/
structure TransactionSelf where
  db_file : String
  lock_file : FileLockSelf
deriving DecidableEq, Repr

/-- Embeds `FileDB.Transaction.__init__` (lines 40-42): stores the db
path and constructs a `FileLock` for the lock file; any exception from
the `FileLock` constructor propagates. -/
def FileDB.Transaction.init (db_file lock_file mode : String) :
    Except PyExn TransactionSelf :=
  match FileLock.init lock_file mode with
  | .error e => .error e
  | .ok fl => .ok ⟨db_file, fl⟩

/-- The fixed index-file path `POOL_FILE` (line 10); the package
directory is abstracted to the file's basename prefix. -/
def POOL_FILE : String := "repo_manager/repo_pool.json"

/-! ## Key digest (`LRURepoPoolSafe._digest`, lines 171-180) -/

/-- The characters removed by Python's `str.strip()`. -/
def pySpace (c : Char) : Bool :=
  c == ' ' || c == '\t' || c == '\n' || c == '\r' || c == '\x0b' || c == '\x0c'

/-- Python `str.strip()`: remove whitespace from both ends. -/
def pyStrip (xs : List Char) : List Char :=
  ((xs.dropWhile pySpace).reverse.dropWhile pySpace).reverse

/-- Python `str.rstrip("/")`: remove every trailing slash. -/
def dropTrailingSlashes (xs : List Char) : List Char :=
  (xs.reverse.dropWhile (fun c => c == '/')).reverse

/-- The reversed character sequence of the suffix `".git"`. -/
def gitSuffixRev : List Char := ['t', 'i', 'g', '.']

/-- Embeds `if s.endswith(".git"): s = s[:-4]` (lines 174-175). -/
def dropDotGit (xs : List Char) : List Char :=
  if xs.reverse.take 4 = gitSuffixRev then (xs.reverse.drop 4).reverse else xs

/-- The character sequence of `"https://"`. -/
def httpsChars : List Char := ['h', 't', 't', 'p', 's', ':', '/', '/']

/-- Worker for `splitOnChar`; `acc` is the current segment, reversed. -/
def splitOnCharAux (c : Char) : List Char → List Char → List (List Char)
  | [], acc => [acc.reverse]
  | x :: xs, acc =>
    if x = c then acc.reverse :: splitOnCharAux c xs []
    else splitOnCharAux c xs (x :: acc)

/-- Python's `str.split(sep)` for a single-character separator. -/
def splitOnChar (c : Char) (xs : List Char) : List (List Char) :=
  splitOnCharAux c xs []

/-- The normalization prefix of `_digest` (lines 172-175): strip
whitespace, lower-case, strip trailing slashes, strip a `".git"`
suffix. -/
def normalizeLocator (url : String) : List Char :=
  dropDotGit (dropTrailingSlashes ((pyStrip url.data).map Char.toLower))

/-- Tuple unpacking `group, repo = parts` followed by `f"·+·"`: a two-element unpacking
that raises `ValueError` unless exactly two values are supplied. -/
def unpackTwo (parts : List (List Char)) : Except PyExn String :=
  match parts with
  | [group, repo] => .ok ⟨group ++ '+' :: repo⟩
  | _ => .error .valueError

/-- Embeds `LRURepoPoolSafe._digest` (lines 171-180).  On the `https://`
branch the last two `/`-separated components are unpacked
(`git_url.split("/")[-2:]`); on the other branch the part after the last
`:` is split on `/` and unpacked. -/
def LRURepoPoolSafe.digest (url : String) : Except PyExn String :=
  let s := normalizeLocator url
  if s.take 8 = httpsChars then
    let parts := splitOnChar '/' s
    unpackTwo (parts.drop (parts.length - 2))
  else
    let lastPart := (splitOnChar ':' s).getLast?.getD []
    unpackTwo (splitOnChar '/' lastPart)

/-! ## Pool state and index operations -/

/-- The sequentially observable state of one pool: the persisted index
(`lru` usage map, `bad` set) together with the resource entry
directories and per-key lock files existing under the repo base
(each identified by its cache key). -/
structure PoolState where
  lru : List (String × Nat)
  bad : List String
  dirs : List String
  locks : List String
deriving DecidableEq, Repr

/-- Membership test `key in dict` for the insertion-ordered association list modelling
`trx.lrucache`. -/
def lruHas (l : List (String × Nat)) (k : String) : Bool :=
  l.any (fun p => p.1 == k)

/-- Increment `trx.lrucache[key] += 1` for a present key (preserves dict order). -/
def bumpLru (l : List (String × Nat)) (k : String) : List (String × Nat) :=
  l.map (fun p => if p.1 = k then (p.1, p.2 + 1) else p)

/-- Deletion `del trx.lrucache[key]`. -/
def eraseLru (l : List (String × Nat)) (k : String) : List (String × Nat) :=
  l.filter (fun p => !(p.1 == k))

/-- Set insertion for the lists modelling `badcache` and the file sets. -/
def addSet (l : List String) (k : String) : List String :=
  if k ∈ l then l else l ++ [k]

/-- Removal of a path from a file set (`shutil.rmtree` / `os.unlink`,
guarded by an existence check in the source). -/
def removeAll (l : List String) (k : String) : List String :=
  l.filter (fun x => !(x == k))

/-- Embeds `if key not in trx.lrucache: trx.lrucache[key] = 1 else:
trx.lrucache[key] += 1` (lines 165-168). -/
def bumpOrInsert (l : List (String × Nat)) (k : String) : List (String × Nat) :=
  if lruHas l k then bumpLru l k else l ++ [(k, 1)]

/-- Embeds `min(trx.lrucache.items(), key=lambda x: x[1])` keeps the first
element attaining the minimum in iteration order. -/
def minUsageFold (x : String × Nat) (l : List (String × Nat)) : String × Nat :=
  l.foldl (fun m y => if y.2 < m.2 then y else m) x

/-- Python `min` over the usage map; `none` models the `ValueError` that
Python's `min` raises on an empty sequence. -/
def minUsage : List (String × Nat) → Option (String × Nat)
  | [] => none
  | x :: xs => some (minUsageFold x xs)

/-- Transaction modes: `FileDB.lock_read()` opens a shared ("r")
transaction, `FileDB.lock()` an exclusive ("w") one. -/
inductive TxMode
  | read
  | write
deriving DecidableEq, Repr

/-- Observable result of one completed `LRURepoPoolSafe.get` call:
the returned value (`some` key handle, or `none` for Python `None`),
the final state, the modes of the index transactions opened, and how
often `Repo.clone_from` was invoked. -/
structure GetResult where
  out : Option String
  state : PoolState
  txs : List TxMode
  fetches : Nat
deriving DecidableEq, Repr

/-- Outcome of the first (write) transaction of `get`. -/
inductive Phase1Out
  | hit
  | bad
  | miss
deriving DecidableEq, Repr

/-- Effect of the capacity-eviction block (lines 128-136) for the
selected least-used key: remove its directory, its lock file if
present, and its usage record. -/
def evictLeast (s : PoolState) (lk : String) : PoolState :=
  { s with
    lru := eraseLru s.lru lk
    dirs := removeAll s.dirs lk
    locks := removeAll s.locks lk }

/-- The first write transaction of `get` (lines 116-136): hit increments
the counter; a bad key returns `None`; otherwise, at capacity, the
least-used entry is evicted (`none` models the uncaught `ValueError`
from `min` when the map is empty with `max_size = 0`). -/
def LRURepoPoolSafe.getPhase1 (maxSize : Nat) (key : String) (s : PoolState) :
    Option (Phase1Out × PoolState) :=
  if lruHas s.lru key then some (.hit, { s with lru := bumpLru s.lru key })
  else if key ∈ s.bad then some (.bad, s)
  else if maxSize ≤ s.lru.length then
    match minUsage s.lru with
    | none => none
    | some lu => some (.miss, evictLeast s lu.1)
  else some (.miss, s)

/-- The part of `get` after the first transaction closes (lines
138-169), starting from any state: `FileLock(repo_lock)` opens the lock
file with `"wb"`, creating it; if the directory exists a handle is
returned with no fetch; otherwise the bad set is re-checked inside a
`self.file_db.lock()` (write-mode) transaction; then `Repo.clone_from`
runs, and its failure is converted into a bad-set entry and `None`
inside a further write transaction, while success records usage 1 (or
increments) inside a write transaction. -/
def LRURepoPoolSafe.getPhase2 (fetchOk : Bool) (key : String) (s : PoolState) :
    GetResult :=
  let s1 : PoolState := { s with locks := addSet s.locks key }
  if key ∈ s1.dirs then ⟨some key, s1, [], 0⟩
  else if key ∈ s1.bad then ⟨none, s1, [.write], 0⟩
  else if fetchOk then
    let s2 : PoolState := { s1 with dirs := addSet s1.dirs key }
    ⟨some key, { s2 with lru := bumpOrInsert s2.lru key }, [.write, .write], 1⟩
  else ⟨none, { s1 with bad := addSet s1.bad key }, [.write, .write], 1⟩

/-- Embeds `LRURepoPoolSafe.get` (lines 111-169) on an already digested
key, sequentially composing the two phases.  `fetchOk` is the oracle for
the external `Repo.clone_from` (succeeds or raises). -/
def LRURepoPoolSafe.get (maxSize : Nat) (fetchOk : Bool) (key : String)
    (s : PoolState) : Option GetResult :=
  match LRURepoPoolSafe.getPhase1 maxSize key s with
  | none => none
  | some (.hit, s1) => some ⟨some key, s1, [.write], 0⟩
  | some (.bad, s1) => some ⟨none, s1, [.write], 0⟩
  | some (.miss, s1) =>
    let r := LRURepoPoolSafe.getPhase2 fetchOk key s1
    some { r with txs := .write :: r.txs }

/-- Embeds `LRURepoPoolSafe.evict` (lines 97-109) on a digested key:
`FileLock(repo_lock)` creates the lock file, then inside a write
transaction, only when the key is in the usage map, its record,
directory and lock file are removed.  The bad set is never touched. -/
def LRURepoPoolSafe.evict (key : String) (s : PoolState) : PoolState :=
  let s1 : PoolState := { s with locks := addSet s.locks key }
  if lruHas s1.lru key then
    { s1 with
      lru := eraseLru s1.lru key
      dirs := removeAll s1.dirs key
      locks := removeAll s1.locks key }
  else s1

/-- Embeds `LRURepoPoolSafe.has` (lines 91-95): a single read
transaction checking membership in either index component. -/
def LRURepoPoolSafe.has (key : String) (s : PoolState) : Bool :=
  lruHas s.lru key || decide (key ∈ s.bad)

/-- One pool operation for sequential runs. -/
inductive PoolOp
  | get (key : String) (fetchOk : Bool)
  | evict (key : String)
deriving DecidableEq, Repr

/-- State effect of one operation; `none` models an operation aborted by
an uncaught exception. -/
def runOp (maxSize : Nat) : PoolOp → PoolState → Option PoolState
  | .get k f, s => (LRURepoPoolSafe.get maxSize f k s).map (·.state)
  | .evict k, s => some (LRURepoPoolSafe.evict k s)

/-- Sequential run of a list of operations; `none` as soon as one
operation does not complete. -/
def runOps (maxSize : Nat) : List PoolOp → PoolState → Option PoolState
  | [], s => some s
  | op :: ops, s =>
    match runOp maxSize op s with
    | none => none
    | some s1 => runOps maxSize ops s1

/-- Failures visible to a caller of the module-level `get` (lines
186-190).  `noRepoError` is the spec's `NotFoundError`; `valueError` is
the unpacking error escaping `_digest`; `fetchError` stands for an
exception of `Repo.clone_from` escaping `get`. -/
inductive TopErr
  | valueError
  | noRepoError
  | fetchError
deriving DecidableEq, Repr

/-- Embeds the module-level `get` (lines 186-190): digest the locator,
run the pool `get`, and raise `NoRepoError` when it returns `None`. -/
def topGet (maxSize : Nat) (fetchOk : Bool) (url : String) (s : PoolState) :
    Option (Except TopErr String) :=
  match LRURepoPoolSafe.digest url with
  | .error _ => some (.error .valueError)
  | .ok key =>
    match LRURepoPoolSafe.get maxSize fetchOk key s with
    | none => none
    | some r =>
      some (match r.out with
        | some h => .ok h
        | none => .error .noRepoError)

/-! ## Python-level entry points (attribute semantics of `FileLock`)

Each public operation is composed exactly as in the source: digest
first, then the first `FileLock` / `FileDB.Transaction` construction;
only if that construction succeeds does the operation's body (the state
model above) run.  The middle component lists the lock files actually
flocked, in order. -/

/-- Entry point `LRURepoPoolSafe.has` as called (lines 91-95): `lock_read()`
constructs a `Transaction` in mode `"r"` before any flock. -/
def LRURepoPoolSafe.hasPy (url : String) (s : PoolState) :
    Except PyExn Bool × List String :=
  match LRURepoPoolSafe.digest url with
  | .error e => (.error e, [])
  | .ok key =>
    match FileDB.Transaction.init POOL_FILE (POOL_FILE ++ ".lock") "r" with
    | .error e => (.error e, [])
    | .ok _trx => (.ok (LRURepoPoolSafe.has key s), [POOL_FILE ++ ".lock"])

/-- Entry point `LRURepoPoolSafe.get` as called (lines 111-169): `self.file_db.lock()`
constructs a `Transaction` in mode `"w"` before any flock.  On the
successful-construction branch the lock trace lists the first
acquisitions (index lock, then the per-key lock). -/
def LRURepoPoolSafe.getPy (maxSize : Nat) (fetchOk : Bool) (url : String)
    (s : PoolState) : Except PyExn (Option String) × List String × PoolState :=
  match LRURepoPoolSafe.digest url with
  | .error e => (.error e, [], s)
  | .ok key =>
    match FileDB.Transaction.init POOL_FILE (POOL_FILE ++ ".lock") "w" with
    | .error e => (.error e, [], s)
    | .ok _trx =>
      match LRURepoPoolSafe.get maxSize fetchOk key s with
      | none => (.error .valueError, [POOL_FILE ++ ".lock"], s)
      | some r => (.ok r.out, [POOL_FILE ++ ".lock", key ++ ".lock"], r.state)

/-- Entry point `LRURepoPoolSafe.evict` as called (lines 97-109): `FileLock(repo_lock)`
is constructed (default mode `"w"`) before any flock. -/
def LRURepoPoolSafe.evictPy (url : String) (s : PoolState) :
    Except PyExn Unit × List String × PoolState :=
  match LRURepoPoolSafe.digest url with
  | .error e => (.error e, [], s)
  | .ok key =>
    match FileLock.init (key ++ ".lock") "w" with
    | .error e => (.error e, [], s)
    | .ok _ =>
      match FileDB.Transaction.init POOL_FILE (POOL_FILE ++ ".lock") "w" with
      | .error e => (.error e, [key ++ ".lock"], s)
      | .ok _ =>
        (.ok (), [key ++ ".lock", POOL_FILE ++ ".lock"],
          LRURepoPoolSafe.evict key s)

/-- Constructor `LRURepoPoolSafe.__init__` (lines 79-89): constructs the `FileDB`,
then opens a write transaction (constructing a `Transaction`, hence a
`FileLock`) to drop usage records whose directory is missing. -/
def LRURepoPoolSafe.initPy (s : PoolState) : Except PyExn PoolState × List String :=
  match FileDB.Transaction.init POOL_FILE (POOL_FILE ++ ".lock") "w" with
  | .error e => (.error e, [])
  | .ok _ =>
    (.ok { s with lru := s.lru.filter (fun p => s.dirs.contains p.1) },
      [POOL_FILE ++ ".lock"])

/-! ## Persistence (`FileDB.Transaction._dump`, lines 64-69) -/

/-- The persisted index document. -/
structure IndexDoc where
  lrucache : List (String × Nat)
  badcache : List String
deriving DecidableEq, Repr

/-- File-system operations performed by `_dump`. -/
inductive FsOp
  | createTempFile (dir : String) (path : String)
  | writeJson (path : String) (doc : IndexDoc)
  | rename (src : String) (dest : String)
  | closeFile (path : String)
deriving DecidableEq, Repr

/-- Embeds `_dump` as its file-system trace:
`tempfile.NamedTemporaryFile("w", delete=False)` with no `dir` argument
creates the file in the system default temporary directory `tmpDir`
(with some fresh name `tmpName`); `json.dump` writes the document into
it; `os.rename` moves it over the db file — still inside the `with`
block, so the close happens after the rename. -/
def FileDB.Transaction.dumpTrace (db_file tmpDir tmpName : String)
    (doc : IndexDoc) : List FsOp :=
  let tmpPath := tmpDir ++ "/" ++ tmpName
  [.createTempFile tmpDir tmpPath, .writeJson tmpPath doc,
    .rename tmpPath db_file, .closeFile tmpPath]

/-- Embeds `os.path.dirname`. -/
def dirname (path : String) : String :=
  ⟨((path.data.reverse.dropWhile (fun c => c != '/')).drop 1).reverse⟩

/-- Side condition for the scheme-equivalence statement: a non-empty
path segment of ordinary characters (no whitespace, already lower-case,
no separator). -/
def plainSeg (xs : List Char) : Prop :=
  xs ≠ [] ∧ ∀ c ∈ xs, pySpace c = false ∧ c.toLower = c ∧ c ≠ '/' ∧ c ≠ ':'

instance (xs : List Char) : Decidable (plainSeg xs) := by
  unfold plainSeg
  infer_instance

/-! ## General list lemmas -/

theorem dropWhile_eq_self_of (p : Char → Bool) (xs : List Char)
    (h : ∀ c ∈ xs, p c = false) : xs.dropWhile p = xs := by
  cases xs with
  | nil => rfl
  | cons x xs => simp [List.dropWhile_cons, h x (List.mem_cons_self x xs)]

theorem pyStrip_eq_self (xs : List Char) (h : ∀ c ∈ xs, pySpace c = false) :
    pyStrip xs = xs := by
  unfold pyStrip
  rw [dropWhile_eq_self_of _ _ h,
    dropWhile_eq_self_of _ _ (fun c hc => h c (List.mem_reverse.mp hc)),
    List.reverse_reverse]

theorem map_eq_self_of (f : Char → Char) (xs : List Char)
    (h : ∀ c ∈ xs, f c = c) : xs.map f = xs := by
  induction xs with
  | nil => rfl
  | cons x xs ih =>
    rw [List.map_cons, h x (List.mem_cons_self x xs),
      ih (fun c hc => h c (List.mem_cons_of_mem x hc))]

theorem dropTrailingSlashes_concat (xs : List Char) (a : Char)
    (ha : (a == '/') = false) :
    dropTrailingSlashes (xs ++ [a]) = xs ++ [a] := by
  unfold dropTrailingSlashes
  rw [List.reverse_append]
  simp only [List.reverse_cons, List.reverse_nil, List.nil_append,
    List.cons_append, List.dropWhile_cons, ha, Bool.false_eq_true, if_false]
  simp

theorem dropDotGit_concat_git (xs : List Char) :
    dropDotGit (xs ++ ['.', 'g', 'i', 't']) = xs := by
  unfold dropDotGit
  rw [List.reverse_append]
  simp [gitSuffixRev]

theorem dropDotGit_eq_self (xs : List Char)
    (h : xs.reverse.take 4 ≠ gitSuffixRev) : dropDotGit xs = xs := by
  unfold dropDotGit
  rw [if_neg h]

theorem splitOnCharAux_of_not_mem (c : Char) (xs acc : List Char)
    (h : c ∉ xs) : splitOnCharAux c xs acc = [acc.reverse ++ xs] := by
  induction xs generalizing acc with
  | nil => simp [splitOnCharAux]
  | cons x xs ih =>
    have hxc : ¬(x = c) := fun he => h (he ▸ List.mem_cons_self x xs)
    rw [show splitOnCharAux c (x :: xs) acc =
        if x = c then acc.reverse :: splitOnCharAux c xs []
        else splitOnCharAux c xs (x :: acc) from rfl]
    rw [if_neg hxc, ih _ (fun hm => h (List.mem_cons_of_mem _ hm))]
    simp

theorem splitOnCharAux_append (c : Char) (xs ys acc : List Char)
    (h : c ∉ xs) :
    splitOnCharAux c (xs ++ c :: ys) acc =
      (acc.reverse ++ xs) :: splitOnCharAux c ys [] := by
  induction xs generalizing acc with
  | nil =>
    rw [List.nil_append,
      show splitOnCharAux c (c :: ys) acc =
        if c = c then acc.reverse :: splitOnCharAux c ys []
        else splitOnCharAux c ys (c :: acc) from rfl]
    rw [if_pos rfl]
    simp
  | cons x xs ih =>
    have hxc : ¬(x = c) := fun he => h (he ▸ List.mem_cons_self x xs)
    rw [List.cons_append,
      show splitOnCharAux c (x :: (xs ++ c :: ys)) acc =
        if x = c then acc.reverse :: splitOnCharAux c (xs ++ c :: ys) []
        else splitOnCharAux c (xs ++ c :: ys) (x :: acc) from rfl]
    rw [if_neg hxc, ih _ (fun hm => h (List.mem_cons_of_mem _ hm))]
    simp

theorem splitOnChar_of_not_mem (c : Char) (xs : List Char) (h : c ∉ xs) :
    splitOnChar c xs = [xs] := by
  unfold splitOnChar
  rw [splitOnCharAux_of_not_mem c xs [] h]
  simp

theorem splitOnChar_append (c : Char) (xs ys : List Char) (h : c ∉ xs) :
    splitOnChar c (xs ++ c :: ys) = xs :: splitOnChar c ys := by
  unfold splitOnChar
  rw [splitOnCharAux_append c xs ys [] h]
  simp

theorem splitOnCharAux_ne_nil (c : Char) (xs acc : List Char) :
    splitOnCharAux c xs acc ≠ [] := by
  induction xs generalizing acc with
  | nil => simp [splitOnCharAux]
  | cons x xs ih =>
    rw [show splitOnCharAux c (x :: xs) acc =
        if x = c then acc.reverse :: splitOnCharAux c xs []
        else splitOnCharAux c xs (x :: acc) from rfl]
    split
    · simp
    · exact ih _

theorem splitOnChar_ne_nil (c : Char) (xs : List Char) :
    splitOnChar c xs ≠ [] := splitOnCharAux_ne_nil c xs []

theorem unpackTwo_of_length_ne_two (parts : List (List Char))
    (h : parts.length ≠ 2) : unpackTwo parts = .error .valueError := by
  match parts with
  | [] => rfl
  | [a] => rfl
  | [a, b] => exact absurd rfl h
  | a :: b :: x :: t => rfl

theorem unpackTwo_of_length_two (parts : List (List Char))
    (h : parts.length = 2) : ∃ k, unpackTwo parts = .ok k := by
  obtain ⟨a, b, rfl⟩ := List.length_eq_two.mp h
  exact ⟨_, rfl⟩

/-! ## Lemmas about the index operations -/

theorem length_bumpLru (l : List (String × Nat)) (k : String) :
    (bumpLru l k).length = l.length := by
  simp [bumpLru]

theorem length_bumpOrInsert_le (l : List (String × Nat)) (k : String) :
    (bumpOrInsert l k).length ≤ l.length + 1 := by
  unfold bumpOrInsert
  split
  · rw [length_bumpLru]
    omega
  · simp

theorem minUsageFold_eq_or_mem (l : List (String × Nat)) (x : String × Nat) :
    minUsageFold x l = x ∨ minUsageFold x l ∈ l := by
  induction l generalizing x with
  | nil => exact Or.inl rfl
  | cons y ys ih =>
    have hrw : minUsageFold x (y :: ys) =
        minUsageFold (if y.2 < x.2 then y else x) ys := rfl
    rw [hrw]
    rcases ih (if y.2 < x.2 then y else x) with h | h
    · rw [h]
      split
      · exact Or.inr (List.mem_cons_self _ _)
      · exact Or.inl rfl
    · exact Or.inr (List.mem_cons_of_mem _ h)

theorem minUsageFold_le (l : List (String × Nat)) (x : String × Nat) :
    (minUsageFold x l).2 ≤ x.2 ∧ ∀ y ∈ l, (minUsageFold x l).2 ≤ y.2 := by
  induction l generalizing x with
  | nil => exact ⟨le_refl _, by simp⟩
  | cons y ys ih =>
    have hrw : minUsageFold x (y :: ys) =
        minUsageFold (if y.2 < x.2 then y else x) ys := rfl
    obtain ⟨h1, h2⟩ := ih (if y.2 < x.2 then y else x)
    have hstart : (if y.2 < x.2 then y else x).2 ≤ x.2 ∧
        (if y.2 < x.2 then y else x).2 ≤ y.2 := by
      split <;> omega
    rw [hrw]
    refine ⟨le_trans h1 hstart.1, ?_⟩
    intro z hz
    rcases List.mem_cons.mp hz with rfl | hz
    · exact le_trans h1 hstart.2
    · exact h2 z hz

theorem minUsage_mem (l : List (String × Nat)) (m : String × Nat)
    (h : minUsage l = some m) : m ∈ l := by
  cases l with
  | nil => cases h
  | cons x xs =>
    have hm : m = minUsageFold x xs := by
      simpa [minUsage] using h.symm
    rcases minUsageFold_eq_or_mem xs x with h1 | h1
    · rw [hm, h1]
      exact List.mem_cons_self _ _
    · rw [hm]
      exact List.mem_cons_of_mem _ h1

theorem minUsage_min (l : List (String × Nat)) (m : String × Nat)
    (h : minUsage l = some m) : ∀ y ∈ l, m.2 ≤ y.2 := by
  cases l with
  | nil => cases h
  | cons x xs =>
    have hm : m = minUsageFold x xs := by
      simpa [minUsage] using h.symm
    obtain ⟨h1, h2⟩ := minUsageFold_le xs x
    intro y hy
    rcases List.mem_cons.mp hy with rfl | hy
    · rw [hm]; exact h1
    · rw [hm]; exact h2 y hy

theorem length_filter_lt {α : Type} (p : α → Bool) (l : List α) (x : α)
    (hx : x ∈ l) (hpx : p x = false) : (l.filter p).length < l.length := by
  induction l with
  | nil => cases hx
  | cons a l ih =>
    rcases List.mem_cons.mp hx with rfl | hx
    · rw [List.filter_cons, hpx]
      simp only [Bool.false_eq_true, if_false, List.length_cons]
      exact Nat.lt_succ_of_le (List.length_filter_le p l)
    · by_cases hpa : p a = true
      · rw [List.filter_cons, hpa]
        simp only [if_true, List.length_cons]
        exact Nat.succ_lt_succ (ih hx)
      · rw [List.filter_cons, Bool.of_not_eq_true hpa]
        simp only [Bool.false_eq_true, if_false, List.length_cons]
        exact Nat.lt_succ_of_lt (ih hx)

theorem lruHas_iff (l : List (String × Nat)) (k : String) :
    lruHas l k = true ↔ ∃ p ∈ l, p.1 = k := by
  simp [lruHas, List.any_eq_true]

theorem lruHas_false_iff (l : List (String × Nat)) (k : String) :
    lruHas l k = false ↔ ∀ p ∈ l, p.1 ≠ k := by
  simp [lruHas, List.any_eq_false]

theorem lruHas_eraseLru_self (l : List (String × Nat)) (k : String) :
    lruHas (eraseLru l k) k = false := by
  rw [lruHas_false_iff]
  intro p hp
  have h2 := (List.mem_filter.mp hp).2
  simpa using h2

theorem length_eraseLru_lt (l : List (String × Nat)) (k : String)
    (h : lruHas l k = true) : (eraseLru l k).length < l.length := by
  obtain ⟨p, hp, hpk⟩ := (lruHas_iff l k).mp h
  exact length_filter_lt _ l p hp (by simp [hpk])

theorem lruHas_filter_false (l : List (String × Nat))
    (pred : String × Nat → Bool) (k : String) (h : lruHas l k = false) :
    lruHas (l.filter pred) k = false := by
  rw [lruHas_false_iff] at h ⊢
  intro p hp
  exact h p (List.mem_filter.mp hp).1

theorem not_mem_removeAll_self (l : List String) (k : String) :
    k ∉ removeAll l k := by
  intro h
  have h2 := (List.mem_filter.mp h).2
  simp at h2

theorem not_mem_removeAll_of_not_mem (l : List String) (k a : String)
    (h : a ∉ l) : a ∉ removeAll l k := by
  intro hmem
  exact h (List.mem_filter.mp hmem).1

theorem mem_addSet_self (l : List String) (k : String) : k ∈ addSet l k := by
  unfold addSet
  split
  · assumption
  · simp

theorem evict_lru_le (key : String) (s : PoolState) :
    (LRURepoPoolSafe.evict key s).lru.length ≤ s.lru.length := by
  unfold LRURepoPoolSafe.evict
  dsimp only
  split
  · exact List.length_filter_le _ _
  · exact le_refl _

/-- Case analysis on the first transaction of `get`. -/
theorem getPhase1_cases (maxSize : Nat) (k : String) (s : PoolState)
    (o : Phase1Out) (s1 : PoolState)
    (h : LRURepoPoolSafe.getPhase1 maxSize k s = some (o, s1)) :
    (o = .hit ∧ s1 = { s with lru := bumpLru s.lru k }) ∨
    (o = .bad ∧ s1 = s) ∨
    (o = .miss ∧
      ((s1 = s ∧ s.lru.length < maxSize) ∨
        ∃ lu, minUsage s.lru = some lu ∧ lu ∈ s.lru ∧
          s1 = evictLeast s lu.1)) := by
  unfold LRURepoPoolSafe.getPhase1 at h
  split at h
  · simp only [Option.some.injEq, Prod.mk.injEq] at h
    exact Or.inl ⟨h.1.symm, h.2.symm⟩
  · split at h
    · simp only [Option.some.injEq, Prod.mk.injEq] at h
      exact Or.inr (Or.inl ⟨h.1.symm, h.2.symm⟩)
    · split at h
      · split at h
        · cases h
        · case _ lu heq =>
          simp only [Option.some.injEq, Prod.mk.injEq] at h
          refine Or.inr (Or.inr ⟨h.1.symm, Or.inr ⟨lu, heq, minUsage_mem _ _ heq, h.2.symm⟩⟩)
      · simp only [Option.some.injEq, Prod.mk.injEq] at h
        refine Or.inr (Or.inr ⟨h.1.symm, Or.inl ⟨h.2.symm, by omega⟩⟩)

/-- The final usage map of `getPhase2` is the input one, possibly
upserted with the requested key. -/
theorem getPhase2_lru (f : Bool) (k : String) (s : PoolState) :
    (LRURepoPoolSafe.getPhase2 f k s).state.lru = s.lru ∨
    (LRURepoPoolSafe.getPhase2 f k s).state.lru = bumpOrInsert s.lru k := by
  unfold LRURepoPoolSafe.getPhase2
  dsimp only
  split
  · exact Or.inl rfl
  · split
    · exact Or.inl rfl
    · split
      · exact Or.inr rfl
      · exact Or.inl rfl

/-- Unfolded equation for `getPhase2` when the fetch fails on a key
that is neither on disk nor bad. -/
theorem getPhase2_fetch_fail (key : String) (s : PoolState)
    (h1 : key ∉ s.dirs) (h2 : key ∉ s.bad) :
    LRURepoPoolSafe.getPhase2 false key s =
      ⟨none, ⟨s.lru, addSet s.bad key, s.dirs, addSet s.locks key⟩,
        [TxMode.write, TxMode.write], 1⟩ := by
  unfold LRURepoPoolSafe.getPhase2
  dsimp only
  rw [if_neg h1, if_neg h2]
  rfl

/-- One completed `get` keeps the usage map within a capacity bound it
already satisfied. -/
theorem get_state_lru_le (maxSize : Nat) (f : Bool) (k : String)
    (s : PoolState) (r : GetResult)
    (h : LRURepoPoolSafe.get maxSize f k s = some r)
    (hs : s.lru.length ≤ maxSize) : r.state.lru.length ≤ maxSize := by
  unfold LRURepoPoolSafe.get at h
  cases h1 : LRURepoPoolSafe.getPhase1 maxSize k s with
  | none => rw [h1] at h; cases h
  | some p =>
    obtain ⟨o, s1⟩ := p
    rw [h1] at h
    have hcases := getPhase1_cases maxSize k s o s1 h1
    cases o with
    | hit =>
      injection h with h2
      subst h2
      rcases hcases with ⟨_, hs1⟩ | ⟨hc, _⟩ | ⟨hc, _⟩
      · subst hs1
        dsimp only
        rw [length_bumpLru]
        exact hs
      · exact Phase1Out.noConfusion hc
      · exact Phase1Out.noConfusion hc
    | bad =>
      injection h with h2
      subst h2
      rcases hcases with ⟨hc, _⟩ | ⟨_, hs1⟩ | ⟨hc, _⟩
      · exact Phase1Out.noConfusion hc
      · subst hs1
        exact hs
      · exact Phase1Out.noConfusion hc
    | miss =>
      injection h with h2
      subst h2
      rcases hcases with ⟨hc, _⟩ | ⟨hc, _⟩ | ⟨_, hmiss⟩
      · exact Phase1Out.noConfusion hc
      · exact Phase1Out.noConfusion hc
      rcases hmiss with ⟨hs1, hlt⟩ | ⟨lu, hmu, hmem, hs1⟩
      · rw [hs1]
        rcases getPhase2_lru f k s with hb | hb
        · dsimp only
          rw [hb]
          exact hs
        · dsimp only
          rw [hb]
          have := length_bumpOrInsert_le s.lru k
          omega
      · rw [hs1]
        have hlru : lruHas s.lru lu.1 = true :=
          (lruHas_iff _ _).mpr ⟨lu, hmem, rfl⟩
        have hlt2 : (evictLeast s lu.1).lru.length < s.lru.length :=
          length_eraseLru_lt _ _ hlru
        rcases getPhase2_lru f k (evictLeast s lu.1) with hb | hb
        · dsimp only
          rw [hb]
          omega
        · dsimp only
          rw [hb]
          have := length_bumpOrInsert_le (evictLeast s lu.1).lru k
          omega

theorem plainSeg_all {xs : List Char} (h : plainSeg xs) :
    (∀ c ∈ xs, pySpace c = false) ∧ (∀ c ∈ xs, c.toLower = c) ∧
    '/' ∉ xs ∧ ':' ∉ xs := by
  refine ⟨fun c hc => (h.2 c hc).1, fun c hc => (h.2 c hc).2.1, ?_, ?_⟩
  · intro hm
    exact (h.2 '/' hm).2.2.1 rfl
  · intro hm
    exact (h.2 ':' hm).2.2.2 rfl

/-- A list of the shape `host ++ ':' :: group ++ '/' :: repo` whose
`repo` part is slash-free, dot-free and non-empty does not end in
`".git"`. -/
theorem ssh_reverse_take_ne (host group repo : List Char)
    (hrne : repo ≠ []) (hdot : '.' ∉ repo) :
    (host ++ ':' :: group ++ '/' :: repo).reverse.take 4 ≠ gitSuffixRev := by
  intro heq
  have hrev : (host ++ ':' :: group ++ '/' :: repo).reverse =
      repo.reverse ++ '/' :: (group.reverse ++ ':' :: host.reverse) := by
    simp
  rw [hrev] at heq
  rcases h4 : repo.reverse with _ | ⟨a, tl1⟩
  · exact hrne (by simpa using congrArg List.reverse h4)
  rcases tl1 with _ | ⟨b, tl2⟩
  · rw [h4] at heq
    simp [gitSuffixRev] at heq
  rcases tl2 with _ | ⟨c, tl3⟩
  · rw [h4] at heq
    simp [gitSuffixRev] at heq
  rcases tl3 with _ | ⟨d, tl4⟩
  · rw [h4] at heq
    simp [gitSuffixRev] at heq
  rw [h4] at heq
  simp [gitSuffixRev] at heq
  apply hdot
  rw [← List.mem_reverse, h4]
  simp [heq.2.2.2]

/-- A list of the shape `host ++ ':' :: group ++ '/' :: repo` whose
non-empty `host` does not start with `https` cannot start with
`https://`. -/
theorem ssh_take8_ne (host group repo : List Char) (hhne : host ≠ [])
    (hh5 : host.take 5 ≠ ['h', 't', 't', 'p', 's']) :
    (host ++ ':' :: group ++ '/' :: repo).take 8 ≠ httpsChars := by
  intro heq
  cases host with
  | nil => exact hhne rfl
  | cons a t1 =>
    cases t1 with
    | nil => simp [httpsChars] at heq
    | cons b t2 =>
      cases t2 with
      | nil => simp [httpsChars] at heq
      | cons c t3 =>
        cases t3 with
        | nil => simp [httpsChars] at heq
        | cons d t4 =>
          cases t4 with
          | nil => simp [httpsChars] at heq
          | cons e t5 =>
            rw [show ((a :: b :: c :: d :: e :: t5) ++
                ':' :: group ++ '/' :: repo) =
              a :: b :: c :: d :: e ::
                (t5 ++ ':' :: group ++ '/' :: repo) from rfl] at heq
            simp [httpsChars] at heq
            obtain ⟨ha, hb, hc, hd, he, -⟩ := heq
            exact hh5 (by simp [ha, hb, hc, hd, he])

/-! ## Claim theorems -/

/-- C1: Constructing a `FileLock` always fails.  `FileLock.__init__`
reads `self.mode` (in the expression choosing the open mode) before the
attribute is assigned, raising an `AttributeError`; consequently every
public operation that builds a `FileLock` or a `FileDB` transaction —
`has`, `get`, `evict` and the pool constructor — raises that
`AttributeError` before acquiring any lock (empty lock trace) and
without changing any state. -/
theorem C1_filelock_init_always_raises :
    (∀ file mode : String,
      FileLock.init file mode = .error (.attributeError "mode")) ∧
    (∀ (url key : String) (s : PoolState),
      LRURepoPoolSafe.digest url = .ok key →
      LRURepoPoolSafe.hasPy url s = (.error (.attributeError "mode"), []) ∧
      (∀ (maxSize : Nat) (f : Bool),
        LRURepoPoolSafe.getPy maxSize f url s =
          (.error (.attributeError "mode"), [], s)) ∧
      LRURepoPoolSafe.evictPy url s =
        (.error (.attributeError "mode"), [], s)) ∧
    (∀ s : PoolState,
      LRURepoPoolSafe.initPy s = (.error (.attributeError "mode"), [])) := by
  refine ⟨fun file mode => rfl, ?_, fun s => rfl⟩
  intro url key s hd
  refine ⟨?_, ?_, ?_⟩
  · unfold LRURepoPoolSafe.hasPy
    rw [hd]
    rfl
  · intro maxSize f
    unfold LRURepoPoolSafe.getPy
    rw [hd]
    rfl
  · unfold LRURepoPoolSafe.evictPy
    rw [hd]
    rfl

/-- Witness for C1 at a concrete locator and state. -/
theorem C1_witness :
    LRURepoPoolSafe.digest "https://h/g/r" = Except.ok "g+r" ∧
    LRURepoPoolSafe.evictPy "https://h/g/r" ⟨[], [], [], []⟩ =
      (.error (.attributeError "mode"), [], (⟨[], [], [], []⟩ : PoolState)) := by
  have hd : LRURepoPoolSafe.digest "https://h/g/r" = Except.ok "g+r" := rfl
  exact ⟨hd,
    (C1_filelock_init_always_raises.2.1 "https://h/g/r" "g+r"
      ⟨[], [], [], []⟩ hd).2.2⟩

/-- C2 fails on the code: `evict` never removes a key from the bad set.
On the bad-only key `g+r`, after `evict` the key is still in the bad
set, `has` still returns true (the claim says false), and a subsequent
`get` returns the cached failure without attempting any fetch (the
claim says a fresh fetch is attempted). -/
theorem C2_counterexample :
    (LRURepoPoolSafe.evict "g+r" ⟨[], ["g+r"], [], []⟩).bad = ["g+r"] ∧
    LRURepoPoolSafe.has "g+r"
      (LRURepoPoolSafe.evict "g+r" ⟨[], ["g+r"], [], []⟩) = true ∧
    (LRURepoPoolSafe.get 5 true "g+r"
        (LRURepoPoolSafe.evict "g+r" ⟨[], ["g+r"], [], []⟩)).map (·.fetches) =
      some 0 :=
  ⟨rfl, rfl, rfl⟩

/-- C2 (amended): `evict` never modifies the bad set.  For a key absent
from the usage map the index and the entry directories are unchanged —
only the per-key lock file is created by acquiring the lock — so
evicting an entirely absent key is an index no-op; for a bad-only key
the key stays in the bad set, `has` still returns true, and a
subsequent `get` still fails without fetching. -/
theorem C2_evict_bad_amended :
    (∀ (key : String) (s : PoolState),
      (LRURepoPoolSafe.evict key s).bad = s.bad) ∧
    (∀ (key : String) (s : PoolState), lruHas s.lru key = false →
      LRURepoPoolSafe.evict key s = { s with locks := addSet s.locks key }) ∧
    (∀ (key : String) (s : PoolState), lruHas s.lru key = false →
      key ∈ s.bad →
      LRURepoPoolSafe.has key (LRURepoPoolSafe.evict key s) = true ∧
      ∀ (maxSize : Nat) (f : Bool),
        LRURepoPoolSafe.get maxSize f key (LRURepoPoolSafe.evict key s) =
          some ⟨none, { s with locks := addSet s.locks key },
            [TxMode.write], 0⟩) := by
  have h2 : ∀ (key : String) (s : PoolState), lruHas s.lru key = false →
      LRURepoPoolSafe.evict key s = { s with locks := addSet s.locks key } := by
    intro key s h
    unfold LRURepoPoolSafe.evict
    dsimp only
    rw [if_neg (by simp [h])]
  refine ⟨?_, h2, ?_⟩
  · intro key s
    unfold LRURepoPoolSafe.evict
    dsimp only
    split <;> rfl
  · intro key s h hb
    rw [h2 key s h]
    constructor
    · simp [LRURepoPoolSafe.has, hb]
    · intro maxSize f
      unfold LRURepoPoolSafe.get LRURepoPoolSafe.getPhase1
      simp [h, hb]

/-- Witness for C2 (amended) at a concrete bad-only key. -/
theorem C2_witness :
    LRURepoPoolSafe.has "k"
      (LRURepoPoolSafe.evict "k" ⟨[], ["k"], ["x"], []⟩) = true ∧
    LRURepoPoolSafe.get 3 true "k"
        (LRURepoPoolSafe.evict "k" ⟨[], ["k"], ["x"], []⟩) =
      some ⟨none, ⟨[], ["k"], ["x"], ["k"]⟩, [TxMode.write], 0⟩ := by
  have h := C2_evict_bad_amended.2.2 "k" ⟨[], ["k"], ["x"], []⟩
    (by decide) (by decide)
  exact ⟨h.1, h.2 3 true⟩

/-- C3 fails on the code: the locator `https://host` yields fewer than
two path segments, yet the digest succeeds with the degenerate key
`+host` instead of failing with any error. -/
theorem C3_counterexample :
    LRURepoPoolSafe.digest "https://host" = Except.ok "+host" ∧
    (LRURepoPoolSafe.digest "https://host").isOk = true :=
  ⟨rfl, rfl⟩

/-- C3 (amended): the digest fails only with the `ValueError` of tuple
unpacking (no `InvalidLocatorError` class exists in the code), and only
on the non-`https://` branch, when the text after the last colon does
not split into exactly two slash-separated segments; a locator whose
normalized form starts with `https://` never fails, whatever its number
of path segments. -/
theorem C3_digest_error_amended :
    (∀ url : String, (normalizeLocator url).take 8 = httpsChars →
      ∃ k, LRURepoPoolSafe.digest url = Except.ok k) ∧
    (∀ url : String, (normalizeLocator url).take 8 ≠ httpsChars →
      (splitOnChar '/'
          ((splitOnChar ':' (normalizeLocator url)).getLast?.getD
            [])).length ≠ 2 →
      LRURepoPoolSafe.digest url = Except.error PyExn.valueError) := by
  constructor
  · intro url h
    have hs : normalizeLocator url =
        httpsChars ++ (normalizeLocator url).drop 8 := by
      conv_lhs => rw [← List.take_append_drop 8 (normalizeLocator url)]
      rw [h]
    unfold LRURepoPoolSafe.digest
    dsimp only
    rw [if_pos h]
    have hsplit : splitOnChar '/' (normalizeLocator url) =
        ['h', 't', 't', 'p', 's', ':'] :: [] ::
          splitOnChar '/' ((normalizeLocator url).drop 8) := by
      conv_lhs => rw [hs]
      have h1 : httpsChars ++ (normalizeLocator url).drop 8 =
          ['h', 't', 't', 'p', 's', ':'] ++
            '/' :: ('/' :: (normalizeLocator url).drop 8) := rfl
      rw [h1, splitOnChar_append _ _ _ (by decide)]
      congr 1
    rw [hsplit]
    apply unpackTwo_of_length_two
    rw [List.length_drop]
    have hge : 2 ≤ (['h', 't', 't', 'p', 's', ':'] :: [] ::
        splitOnChar '/' ((normalizeLocator url).drop 8)).length := by
      simp
    omega
  · intro url h hlen
    unfold LRURepoPoolSafe.digest
    dsimp only
    rw [if_neg h]
    exact unpackTwo_of_length_ne_two _ hlen

/-- Witness for C3 (amended) at concrete locators. -/
theorem C3_witness :
    (∃ k, LRURepoPoolSafe.digest "https://x" = Except.ok k) ∧
    LRURepoPoolSafe.digest "foo" = Except.error PyExn.valueError :=
  ⟨C3_digest_error_amended.1 "https://x" (by decide),
    C3_digest_error_amended.2 "foo" (by decide) (by decide)⟩

/-- C4 fails on the code: `_dump` creates its temporary file in the
system default temporary directory (`NamedTemporaryFile` is called with
no `dir` argument), which is not the directory of the index file. -/
theorem C4_counterexample :
    FileDB.Transaction.dumpTrace POOL_FILE "/tmp" "tmpa1b2"
        ⟨[("g+r", 1)], []⟩ =
      [.createTempFile "/tmp" "/tmp/tmpa1b2",
        .writeJson "/tmp/tmpa1b2" ⟨[("g+r", 1)], []⟩,
        .rename "/tmp/tmpa1b2" POOL_FILE,
        .closeFile "/tmp/tmpa1b2"] ∧
    dirname POOL_FILE = "repo_manager" ∧
    "/tmp" ≠ dirname POOL_FILE :=
  ⟨rfl, rfl, by decide⟩

/-- C4 (amended): every write transaction persists the document by
writing it to a temporary file in the system default temporary
directory and renaming that file over the index path; the rename
precedes the close of the temporary file. -/
theorem C4_dump_amended :
    ∀ (db tmpDir tmpName : String) (doc : IndexDoc),
      ∃ tmpPath,
        FileDB.Transaction.dumpTrace db tmpDir tmpName doc =
          [.createTempFile tmpDir tmpPath, .writeJson tmpPath doc,
            .rename tmpPath db, .closeFile tmpPath] :=
  fun _db tmpDir tmpName _doc => ⟨tmpDir ++ "/" ++ tmpName, rfl⟩

/-- C7 fails on the code: on the miss path the re-check of the bad set
after the per-key lock is acquired opens `self.file_db.lock()` — a
write transaction — not a read transaction: all three transactions of a
fresh miss are write-mode. -/
theorem C7_counterexample :
    LRURepoPoolSafe.get 5 true "k" ⟨[], [], [], []⟩ =
      some ⟨some "k", ⟨[("k", 1)], [], ["k"], ["k"]⟩,
        [TxMode.write, TxMode.write, TxMode.write], 1⟩ ∧
    TxMode.write ≠ TxMode.read :=
  ⟨by decide, by decide⟩

/-- C7 (amended): after the per-key lock is acquired, if the resource
entry directory exists `get` returns a handle to it with no fetch and
no further transaction; otherwise the bad set is re-checked inside a
short write transaction (not a read transaction), and when the key is
bad the call fails (`None`, i.e. `NotFoundError` at module level)
without fetching. -/
theorem C7_postlock_amended :
    (∀ (f : Bool) (key : String) (s : PoolState), key ∈ s.dirs →
      LRURepoPoolSafe.getPhase2 f key s =
        ⟨some key, { s with locks := addSet s.locks key }, [], 0⟩) ∧
    (∀ (f : Bool) (key : String) (s : PoolState),
      key ∉ s.dirs → key ∈ s.bad →
      LRURepoPoolSafe.getPhase2 f key s =
        ⟨none, { s with locks := addSet s.locks key },
          [TxMode.write], 0⟩) := by
  constructor
  · intro f key s h
    unfold LRURepoPoolSafe.getPhase2
    dsimp only
    rw [if_pos h]
  · intro f key s h1 h2
    unfold LRURepoPoolSafe.getPhase2
    dsimp only
    rw [if_neg h1, if_pos h2]

/-- C5: capacity invariant — starting from a usage map with at most
`maxSize` keys, after every completed `get`/`evict` operation of a
sequential run the usage map still has at most `maxSize` keys (any
prefix of the run is itself a run, so the bound holds after each step). -/
theorem C5_capacity_invariant :
    ∀ (maxSize : Nat) (ops : List PoolOp) (s fin : PoolState),
      s.lru.length ≤ maxSize → runOps maxSize ops s = some fin →
      fin.lru.length ≤ maxSize := by
  intro maxSize ops
  induction ops with
  | nil =>
    intro s fin hs h
    injection h with h2
    subst h2
    exact hs
  | cons op ops ih =>
    intro s fin hs h
    unfold runOps at h
    cases hop : runOp maxSize op s with
    | none => rw [hop] at h; cases h
    | some s1 =>
      rw [hop] at h
      refine ih s1 fin ?_ h
      cases op with
      | evict k =>
        have hs1 : s1 = LRURepoPoolSafe.evict k s := by
          simpa [runOp] using hop.symm
        rw [hs1]
        exact le_trans (evict_lru_le k s) hs
      | get k f =>
        obtain ⟨r, hr, hrs⟩ :
            ∃ r, LRURepoPoolSafe.get maxSize f k s = some r ∧
              r.state = s1 := by
          simpa [runOp, Option.map_eq_some'] using hop
        rw [← hrs]
        exact get_state_lru_le maxSize f k s r hr hs

/-- Witness for C5 at a concrete run that crosses the capacity bound. -/
theorem C5_witness :
    (PoolState.mk [("b", 1), ("c", 1)] [] ["b", "c"] ["b", "c"]).lru.length
      ≤ 2 :=
  C5_capacity_invariant 2 [.get "a" true, .get "b" true, .get "c" true]
    ⟨[], [], [], []⟩ ⟨[("b", 1), ("c", 1)], [], ["b", "c"], ["b", "c"]⟩
    (by decide) (by decide)

/-- C6: when `get` admits a new key while the usage map is at capacity,
the eviction step selects an entry with the minimum usage counter,
removes its directory, removes its lock file, and deletes its usage
record; in particular with `max_size = 2`, after `get a`, `get b`,
`get c` exactly two entries remain, including `c`, and the evicted
entry's directory no longer exists. -/
theorem C6_eviction_policy :
    (∀ (maxSize : Nat) (key : String) (s : PoolState) (o : Phase1Out)
        (s1 : PoolState),
      lruHas s.lru key = false → key ∉ s.bad → maxSize ≤ s.lru.length →
      LRURepoPoolSafe.getPhase1 maxSize key s = some (o, s1) →
      ∃ lu, minUsage s.lru = some lu ∧ o = .miss ∧
        s1 = evictLeast s lu.1 ∧ (∀ p ∈ s.lru, lu.2 ≤ p.2) ∧
        lruHas s1.lru lu.1 = false ∧ lu.1 ∉ s1.dirs ∧ lu.1 ∉ s1.locks ∧
        s1.lru.length < s.lru.length) ∧
    (runOps 2 [.get "a" true, .get "b" true, .get "c" true] ⟨[], [], [], []⟩ =
        some ⟨[("b", 1), ("c", 1)], [], ["b", "c"], ["b", "c"]⟩ ∧
      "a" ∉ ["b", "c"] ∧ lruHas [("b", 1), ("c", 1)] "c" = true ∧
      ([("b", 1), ("c", 1)] : List (String × Nat)).length = 2) := by
  constructor
  · intro maxSize key s o s1 h1 h2 hcap h
    unfold LRURepoPoolSafe.getPhase1 at h
    rw [if_neg (by simp [h1]), if_neg h2, if_pos hcap] at h
    cases hmu : minUsage s.lru with
    | none => rw [hmu] at h; cases h
    | some lu =>
      rw [hmu] at h
      injection h with h3
      have ho : Phase1Out.miss = o := congrArg Prod.fst h3
      have hs1 : evictLeast s lu.1 = s1 := congrArg Prod.snd h3
      subst ho
      subst hs1
      have hmem := minUsage_mem s.lru lu hmu
      refine ⟨lu, rfl, rfl, rfl, minUsage_min s.lru lu hmu, ?_, ?_, ?_, ?_⟩
      · exact lruHas_eraseLru_self s.lru lu.1
      · exact not_mem_removeAll_self s.dirs lu.1
      · exact not_mem_removeAll_self s.locks lu.1
      · exact length_eraseLru_lt s.lru lu.1
          ((lruHas_iff _ _).mpr ⟨lu, hmem, rfl⟩)
  · exact ⟨by decide, by decide, by decide, by decide⟩

/-- Witness for C6 instantiating the eviction step at capacity 2. -/
theorem C6_witness :
    ∃ lu, minUsage [("a", 1), ("b", 1)] = some lu ∧
      Phase1Out.miss = Phase1Out.miss ∧
      (⟨[("b", 1)], [], ["b"], ["b"]⟩ : PoolState) =
        evictLeast ⟨[("a", 1), ("b", 1)], [], ["a", "b"], ["a", "b"]⟩ lu.1 ∧
      (∀ p ∈ [("a", 1), ("b", 1)], lu.2 ≤ p.2) ∧
      lruHas (PoolState.mk [("b", 1)] [] ["b"] ["b"]).lru lu.1 = false ∧
      lu.1 ∉ (PoolState.mk [("b", 1)] [] ["b"] ["b"]).dirs ∧
      lu.1 ∉ (PoolState.mk [("b", 1)] [] ["b"] ["b"]).locks ∧
      (PoolState.mk [("b", 1)] [] ["b"] ["b"]).lru.length <
        ([("a", 1), ("b", 1)] : List (String × Nat)).length :=
  C6_eviction_policy.1 2 "c"
    ⟨[("a", 1), ("b", 1)], [], ["a", "b"], ["a", "b"]⟩
    Phase1Out.miss ⟨[("b", 1)], [], ["b"], ["b"]⟩
    (by decide) (by decide) (by decide) (by decide)

/-- C8: when the fetch fails on a fresh key, `get` adds the key to the
persisted bad set inside a write transaction and returns the failure
(`None`, raised as `NoRepoError` — the spec's `NotFoundError` — by the
module-level `get`); the fetch exception is caught internally and never
reaches the caller, and for every locator that digests successfully the
only failure `get` can surface is `NotFoundError`. -/
theorem C8_fetch_failure :
    (∀ (maxSize : Nat) (key : String) (s : PoolState) (r : GetResult),
      LRURepoPoolSafe.get maxSize false key s = some r →
      lruHas s.lru key = false → key ∉ s.bad → key ∉ s.dirs →
      r.out = none ∧ key ∈ r.state.bad ∧
      r.txs = [TxMode.write, TxMode.write, TxMode.write] ∧
      r.fetches = 1) ∧
    (∀ (maxSize : Nat) (f : Bool) (url : String) (s : PoolState)
        (res : Except TopErr String),
      topGet maxSize f url s = some res → res ≠ .error .fetchError) ∧
    (∀ (maxSize : Nat) (f : Bool) (url key : String) (s : PoolState)
        (res : Except TopErr String),
      LRURepoPoolSafe.digest url = .ok key →
      topGet maxSize f url s = some res →
      (∃ h, res = .ok h) ∨ res = .error .noRepoError) := by
  refine ⟨?_, ?_, ?_⟩
  · intro maxSize key s r h h1 h2 h3
    unfold LRURepoPoolSafe.get at h
    cases hp : LRURepoPoolSafe.getPhase1 maxSize key s with
    | none => rw [hp] at h; cases h
    | some p =>
      obtain ⟨o, s1⟩ := p
      rw [hp] at h
      unfold LRURepoPoolSafe.getPhase1 at hp
      rw [if_neg (by simp [h1]), if_neg h2] at hp
      have hspec : o = Phase1Out.miss ∧ key ∉ s1.dirs ∧ key ∉ s1.bad := by
        by_cases hcap : maxSize ≤ s.lru.length
        · rw [if_pos hcap] at hp
          cases hmu : minUsage s.lru with
          | none => rw [hmu] at hp; cases hp
          | some lu =>
            rw [hmu] at hp
            injection hp with hp2
            have ho : Phase1Out.miss = o := congrArg Prod.fst hp2
            have hs1 : evictLeast s lu.1 = s1 := congrArg Prod.snd hp2
            refine ⟨ho.symm, ?_, ?_⟩
            · rw [← hs1]
              exact not_mem_removeAll_of_not_mem s.dirs lu.1 key h3
            · rw [← hs1]
              exact h2
        · rw [if_neg hcap] at hp
          injection hp with hp2
          have ho : Phase1Out.miss = o := congrArg Prod.fst hp2
          have hs1 : s = s1 := congrArg Prod.snd hp2
          exact ⟨ho.symm, hs1 ▸ h3, hs1 ▸ h2⟩
      obtain ⟨ho, hd1, hb1⟩ := hspec
      subst ho
      injection h with h4
      subst h4
      rw [getPhase2_fetch_fail key s1 hd1 hb1]
      refine ⟨rfl, ?_, rfl, rfl⟩
      exact mem_addSet_self s1.bad key
  · intro maxSize f url s res h
    unfold topGet at h
    cases hd : LRURepoPoolSafe.digest url with
    | error e =>
      rw [hd] at h
      injection h with h2
      subst h2
      simp
    | ok key =>
      rw [hd] at h
      have h2 : (match LRURepoPoolSafe.get maxSize f key s with
          | none => none
          | some r =>
            some (match r.out with
              | some v => Except.ok v
              | none => Except.error TopErr.noRepoError)) = some res := h
      cases hg : LRURepoPoolSafe.get maxSize f key s with
      | none => rw [hg] at h2; cases h2
      | some r =>
        rw [hg] at h2
        injection h2 with h3
        subst h3
        cases ho : r.out <;> simp
  · intro maxSize f url key s res hd h
    unfold topGet at h
    rw [hd] at h
    have h2 : (match LRURepoPoolSafe.get maxSize f key s with
        | none => none
        | some r =>
          some (match r.out with
            | some v => Except.ok v
            | none => Except.error TopErr.noRepoError)) = some res := h
    cases hg : LRURepoPoolSafe.get maxSize f key s with
    | none => rw [hg] at h2; cases h2
    | some r =>
      rw [hg] at h2
      injection h2 with h3
      subst h3
      cases ho : r.out with
      | none => right; rfl
      | some v => left; exact ⟨v, rfl⟩

/-- Witness for C8 at a concrete failing fetch. -/
theorem C8_witness :
    ((⟨none, ⟨[], ["g+r"], [], ["g+r"]⟩,
        [TxMode.write, TxMode.write, TxMode.write], 1⟩ : GetResult).out =
        none ∧
      "g+r" ∈ (GetResult.mk none ⟨[], ["g+r"], [], ["g+r"]⟩
          [TxMode.write, TxMode.write, TxMode.write] 1).state.bad ∧
      (GetResult.mk none ⟨[], ["g+r"], [], ["g+r"]⟩
          [TxMode.write, TxMode.write, TxMode.write] 1).txs =
        [TxMode.write, TxMode.write, TxMode.write] ∧
      (GetResult.mk none ⟨[], ["g+r"], [], ["g+r"]⟩
          [TxMode.write, TxMode.write, TxMode.write] 1).fetches = 1) ∧
    ((Except.error TopErr.noRepoError : Except TopErr String) ≠
      Except.error TopErr.fetchError) ∧
    ((∃ h, (Except.error TopErr.noRepoError : Except TopErr String) =
        .ok h) ∨
      (Except.error TopErr.noRepoError : Except TopErr String) =
        .error TopErr.noRepoError) :=
  ⟨C8_fetch_failure.1 4 "g+r" ⟨[], [], [], []⟩
      ⟨none, ⟨[], ["g+r"], [], ["g+r"]⟩,
        [TxMode.write, TxMode.write, TxMode.write], 1⟩
      (by decide) (by decide) (by decide) (by decide),
    C8_fetch_failure.2.1 4 false "h:a/b" ⟨[], [], [], []⟩
      (.error .noRepoError) (by rfl),
    C8_fetch_failure.2.2 4 false "h:a/b" "a+b" ⟨[], [], [], []⟩
      (.error .noRepoError) (by rfl) (by rfl)⟩

/-- Witness for C7 (amended). -/
theorem C7_witness :
    LRURepoPoolSafe.getPhase2 true "k" ⟨[], [], ["k"], []⟩ =
      ⟨some "k", ⟨[], [], ["k"], ["k"]⟩, [], 0⟩ ∧
    LRURepoPoolSafe.getPhase2 true "j" ⟨[], ["j"], [], []⟩ =
      ⟨none, ⟨[], ["j"], [], ["j"]⟩, [TxMode.write], 0⟩ := by
  refine ⟨?_, ?_⟩
  · rw [C7_postlock_amended.1 true "k" ⟨[], [], ["k"], []⟩ (by decide)]
    rfl
  · rw [C7_postlock_amended.2 true "j" ⟨[], ["j"], [], []⟩
      (by decide) (by decide)]
    rfl


/-- C9: the key digest is a pure function of the locator (it is a Lean
function by construction), and locators naming the same resource via
the `https://` scheme (with a `.git` suffix) and via the SSH-style
`host:group/repo` scheme normalize to the identical key
`group+repo` — for ordinary lower-case segments, with the `https`
branch keeping only the last two path components and the `.git` suffix
and trailing slashes stripped. -/
theorem C9_digest_scheme_equiv :
    ∀ host group repo : List Char,
      plainSeg host → plainSeg group → plainSeg repo →
      '.' ∉ repo → host.take 5 ≠ ['h', 't', 't', 'p', 's'] →
      LRURepoPoolSafe.digest
          ⟨httpsChars ++ host ++ '/' :: group ++ '/' :: repo ++
            ['.', 'g', 'i', 't']⟩ = Except.ok ⟨group ++ '+' :: repo⟩ ∧
      LRURepoPoolSafe.digest ⟨host ++ ':' :: group ++ '/' :: repo⟩ =
        Except.ok ⟨group ++ '+' :: repo⟩ := by
  intro host group repo hh hg hr hdot hh5
  obtain ⟨hhs, hhl, hhsl, hhc⟩ := plainSeg_all hh
  obtain ⟨hgs, hgl, hgsl, hgc⟩ := plainSeg_all hg
  obtain ⟨hrs, hrl, hrsl, hrc⟩ := plainSeg_all hr
  constructor
  · -- the https://…/group/repo.git side
    have hhttps_space : ∀ c ∈ httpsChars, pySpace c = false := by decide
    have hhttps_lower : ∀ c ∈ httpsChars, c.toLower = c := by decide
    have hspaceL : ∀ c ∈ httpsChars ++ host ++ '/' :: group ++ '/' ::
        repo ++ ['.', 'g', 'i', 't'], pySpace c = false := by
      intro ch hc
      simp only [List.mem_append, List.mem_cons, List.not_mem_nil,
        or_false, or_assoc] at hc
      rcases hc with hc | hc | rfl | hc | rfl | hc | rfl | rfl | rfl | rfl
      · exact hhttps_space ch hc
      · exact hhs ch hc
      · decide
      · exact hgs ch hc
      · decide
      · exact hrs ch hc
      · decide
      · decide
      · decide
      · decide
    have hlowerL : ∀ c ∈ httpsChars ++ host ++ '/' :: group ++ '/' ::
        repo ++ ['.', 'g', 'i', 't'], c.toLower = c := by
      intro ch hc
      simp only [List.mem_append, List.mem_cons, List.not_mem_nil,
        or_false, or_assoc] at hc
      rcases hc with hc | hc | rfl | hc | rfl | hc | rfl | rfl | rfl | rfl
      · exact hhttps_lower ch hc
      · exact hhl ch hc
      · decide
      · exact hgl ch hc
      · decide
      · exact hrl ch hc
      · decide
      · decide
      · decide
      · decide
    have hslashL : dropTrailingSlashes (httpsChars ++ host ++ '/' ::
        group ++ '/' :: repo ++ ['.', 'g', 'i', 't']) =
        httpsChars ++ host ++ '/' :: group ++ '/' :: repo ++
          ['.', 'g', 'i', 't'] := by
      have hshape : httpsChars ++ host ++ '/' :: group ++ '/' :: repo ++
          ['.', 'g', 'i', 't'] =
          (httpsChars ++ host ++ '/' :: group ++ '/' :: repo ++
            ['.', 'g', 'i']) ++ ['t'] := by
        simp [List.append_assoc]
      rw [hshape]
      exact dropTrailingSlashes_concat _ _ (by decide)
    have hgitL : dropDotGit (httpsChars ++ host ++ '/' :: group ++ '/' ::
        repo ++ ['.', 'g', 'i', 't']) =
        httpsChars ++ host ++ '/' :: group ++ '/' :: repo := by
      have hshape : httpsChars ++ host ++ '/' :: group ++ '/' :: repo ++
          ['.', 'g', 'i', 't'] =
          (httpsChars ++ host ++ '/' :: group ++ '/' :: repo) ++
            ['.', 'g', 'i', 't'] := by
        simp [List.append_assoc]
      rw [hshape]
      exact dropDotGit_concat_git _
    have hnorm1 : normalizeLocator
        ⟨httpsChars ++ host ++ '/' :: group ++ '/' :: repo ++
          ['.', 'g', 'i', 't']⟩ =
        httpsChars ++ host ++ '/' :: group ++ '/' :: repo := by
      show dropDotGit (dropTrailingSlashes ((pyStrip (httpsChars ++ host ++
        '/' :: group ++ '/' :: repo ++
        ['.', 'g', 'i', 't'])).map Char.toLower)) = _
      rw [pyStrip_eq_self _ hspaceL, map_eq_self_of _ _ hlowerL,
        hslashL, hgitL]
    have htake : (httpsChars ++ host ++ '/' :: group ++ '/' ::
        repo).take 8 = httpsChars := by
      simp [httpsChars]
    have hsp : splitOnChar '/' (httpsChars ++ host ++ '/' :: group ++
        '/' :: repo) =
        [['h', 't', 't', 'p', 's', ':'], [], host, group, repo] := by
      have h1 : httpsChars ++ host ++ '/' :: group ++ '/' :: repo =
          ['h', 't', 't', 'p', 's', ':'] ++
            '/' :: ('/' :: (host ++ '/' :: (group ++ '/' :: repo))) := by
        simp [httpsChars, List.append_assoc]
      rw [h1, splitOnChar_append _ _ _ (by decide)]
      have h2 : ('/' :: (host ++ '/' :: (group ++ '/' :: repo))) =
          [] ++ '/' :: (host ++ '/' :: (group ++ '/' :: repo)) := rfl
      rw [h2, splitOnChar_append _ _ _ (by simp)]
      rw [splitOnChar_append _ _ _ hhsl]
      rw [splitOnChar_append _ _ _ hgsl]
      rw [splitOnChar_of_not_mem _ _ hrsl]
    unfold LRURepoPoolSafe.digest
    dsimp only
    rw [hnorm1, if_pos htake, hsp]
    rfl
  · -- the host:group/repo side
    have hspaceN : ∀ c ∈ host ++ ':' :: group ++ '/' :: repo,
        pySpace c = false := by
      intro ch hc
      simp only [List.mem_append, List.mem_cons, or_assoc] at hc
      rcases hc with hc | rfl | hc | rfl | hc
      · exact hhs ch hc
      · decide
      · exact hgs ch hc
      · decide
      · exact hrs ch hc
    have hlowerN : ∀ c ∈ host ++ ':' :: group ++ '/' :: repo,
        c.toLower = c := by
      intro ch hc
      simp only [List.mem_append, List.mem_cons, or_assoc] at hc
      rcases hc with hc | rfl | hc | rfl | hc
      · exact hhl ch hc
      · decide
      · exact hgl ch hc
      · decide
      · exact hrl ch hc
    obtain hrepo | ⟨R, r0, hrepo⟩ := List.eq_nil_or_concat repo
    · exact absurd hrepo hr.1
    have hr0mem : r0 ∈ repo := by
      rw [hrepo]
      simp
    have hr0ne : r0 ≠ '/' := fun he => hrsl (he ▸ hr0mem)
    have hslashN : dropTrailingSlashes (host ++ ':' :: group ++ '/' ::
        repo) = host ++ ':' :: group ++ '/' :: repo := by
      have hshape : host ++ ':' :: group ++ '/' :: repo =
          (host ++ ':' :: group ++ '/' :: R) ++ [r0] := by
        rw [hrepo]
        simp [List.append_assoc]
      rw [hshape]
      exact dropTrailingSlashes_concat _ _ (by simp [hr0ne])
    have hgitN : dropDotGit (host ++ ':' :: group ++ '/' :: repo) =
        host ++ ':' :: group ++ '/' :: repo :=
      dropDotGit_eq_self _ (ssh_reverse_take_ne host group repo hr.1 hdot)
    have hnorm2 : normalizeLocator ⟨host ++ ':' :: group ++ '/' :: repo⟩ =
        host ++ ':' :: group ++ '/' :: repo := by
      show dropDotGit (dropTrailingSlashes ((pyStrip (host ++ ':' ::
        group ++ '/' :: repo)).map Char.toLower)) = _
      rw [pyStrip_eq_self _ hspaceN, map_eq_self_of _ _ hlowerN,
        hslashN, hgitN]
    have htakeN : (host ++ ':' :: group ++ '/' :: repo).take 8 ≠
        httpsChars := ssh_take8_ne host group repo hh.1 hh5
    have hc1 : splitOnChar ':' (host ++ ':' :: group ++ '/' :: repo) =
        [host, group ++ '/' :: repo] := by
      have h0 : host ++ ':' :: group ++ '/' :: repo =
          host ++ ':' :: (group ++ '/' :: repo) := by
        simp
      rw [h0, splitOnChar_append _ _ _ hhc]
      rw [splitOnChar_of_not_mem]
      intro hm
      rcases List.mem_append.mp hm with hm | hm
      · exact hgc hm
      rcases List.mem_cons.mp hm with hm | hm
      · exact absurd hm (by decide)
      · exact hrc hm
    have hc2 : splitOnChar '/' (group ++ '/' :: repo) = [group, repo] := by
      rw [splitOnChar_append _ _ _ hgsl]
      rw [splitOnChar_of_not_mem _ _ hrsl]
    unfold LRURepoPoolSafe.digest
    dsimp only
    rw [hnorm2, if_neg htakeN, hc1]
    show unpackTwo (splitOnChar '/'
      (([host, group ++ '/' :: repo].getLast?).getD [])) = _
    rw [show ([host, group ++ '/' :: repo].getLast?).getD ([] : List Char) =
      group ++ '/' :: repo from rfl]
    rw [hc2]
    rfl

/-- Witness for C9 at the spec example pair. -/
theorem C9_witness :
    LRURepoPoolSafe.digest "https://host/group/repo.git" =
      Except.ok "group+repo" ∧
    LRURepoPoolSafe.digest "host:group/repo" = Except.ok "group+repo" := by
  have h := C9_digest_scheme_equiv ['h', 'o', 's', 't']
    ['g', 'r', 'o', 'u', 'p'] ['r', 'e', 'p', 'o']
    (by decide) (by decide) (by decide) (by decide) (by decide)
  have e1 : ("https://host/group/repo.git" : String) =
      ⟨httpsChars ++ ['h', 'o', 's', 't'] ++ '/' ::
        ['g', 'r', 'o', 'u', 'p'] ++ '/' :: ['r', 'e', 'p', 'o'] ++
        ['.', 'g', 'i', 't']⟩ := by decide
  have e2 : ("host:group/repo" : String) =
      ⟨['h', 'o', 's', 't'] ++ ':' :: ['g', 'r', 'o', 'u', 'p'] ++
        '/' :: ['r', 'e', 'p', 'o']⟩ := by decide
  have e3 : ("group+repo" : String) =
      ⟨['g', 'r', 'o', 'u', 'p'] ++ '+' :: ['r', 'e', 'p', 'o']⟩ := by decide
  rw [e1, e2, e3]
  exact h


end RepoManager
